import Mathlib

/-!
Verification of the exp-stt transcription core.

This file is a shallow embedding of the repository's transcription pipeline:
`internal/transcribe/parakeet.go` (vocabulary loading, the three ONNX stage
drivers, the greedy TDT decode loop, argmax) and the WAV normalizer
(`processWAVBytes`, `convertToMono`, `resample`).

Modelling conventions:
- Go `float32`/`float64` values are modelled as `ℚ`; the modelled code only
  compares them and applies field arithmetic to them.
- Go slices are `List`; Go `int`/`int32`/`int64` are `Int` (all quantities in
  play are far below 2^31, so overflow is immaterial) or `ℕ` for loop counters
  that Go derives from slice lengths.
- The three ONNX runtime sessions are opaque to the Go code; they are modelled
  as oracle functions returning `Except String` results.  A caller-allocated
  output tensor keeps its allocated element count no matter what the session
  writes, so the oracles for the preprocessor and encoder provide a fill
  function `ℕ → ℚ` that is materialised over the allocated size, exactly as
  the Go code copies `GetData()` of the pre-sized output tensor.
- File contents are modelled as the list of their lines (`bufio.Scanner`).
- Each Go stage driver calls `ort.NewAdvancedSession` exactly once per
  invocation; the embedding counts those constructions (the `sessions` field
  of the decode state and the second component of `transcribe`).
-/

set_option maxRecDepth 4000

namespace ExpStt

/-- Model constants from parakeet.go (`const` block). -/
def parakeetSubsamplingFactor : Int := 8

def parakeetDecoderHiddenSize : ℕ := 640

def parakeetEncoderHiddenSize : ℕ := 1024

def parakeetNumMelBins : ℕ := 128

def parakeetHopLength : ℕ := 160

def parakeetNumDurations : ℕ := 5

/-- The fields of `ParakeetModel` that the transcription path reads
(`vocab`, `blankIdx`); the path fields only feed the opaque sessions. -/
structure ParakeetModel where
  vocab : List String
  blankIdx : Int

/-- Helper for `fieldsGo`: accumulates the current whitespace-free run
(in reverse) while walking the character list. -/
def fieldsAux : List Char → List Char → List String
  | [], cur => if cur.isEmpty then [] else [⟨cur.reverse⟩]
  | c :: cs, cur =>
    if c.isWhitespace then
      if cur.isEmpty then fieldsAux cs []
      else (⟨cur.reverse⟩ : String) :: fieldsAux cs []
    else fieldsAux cs (c :: cur)

/-- Model of Go `strings.Fields`: the maximal whitespace-free runs of the
string, in order. -/
def fieldsGo (s : String) : List String := fieldsAux s.data []

/-- The scanner loop of `LoadVocabulary` (parakeet.go:200-210): `idx` counts
all scanned lines, tokens are the first field of each line that has one, and
`blankIdx` is set to the current line counter when that token is `<blk>`. -/
def loadVocabAux : List String → Int → List String → Int → List String × Int
  | [], _, vocab, blankIdx => (vocab, blankIdx)
  | line :: rest, idx, vocab, blankIdx =>
    match fieldsGo line with
    | [] => loadVocabAux rest (idx + 1) vocab blankIdx
    | token :: _ =>
      loadVocabAux rest (idx + 1) (vocab ++ [token])
        (if token = "<blk>" then idx else blankIdx)

/-- Model of `LoadVocabulary` on the list of lines of the vocabulary file
(file I/O and scanner errors abstracted away): returns the token list and the
blank index, falling back to `len(vocab)-1` when no `<blk>` line was seen. -/
def loadVocabulary (lines : List String) : List String × Int :=
  let r := loadVocabAux lines 0 [] (-1)
  (r.1, if r.2 = -1 then (r.1.length : Int) - 1 else r.2)

/-- The `ParakeetModel` as it stands after a successful `LoadVocabulary`. -/
def loadModel (lines : List String) : ParakeetModel :=
  { vocab := (loadVocabulary lines).1, blankIdx := (loadVocabulary lines).2 }

/-- The loop of `argmax` (parakeet.go:509-514): walks the remaining values
carrying the running maximum value, its index, and the current index; the
running maximum is replaced only on strict increase (`val > maxVal`). -/
def argmaxAux : List ℚ → ℚ → ℕ → ℕ → ℕ
  | [], _, maxIdx, _ => maxIdx
  | v :: rest, maxVal, maxIdx, i =>
    if maxVal < v then argmaxAux rest v i (i + 1)
    else argmaxAux rest maxVal maxIdx (i + 1)

/-- Model of `argmax` (parakeet.go:503-516): 0 on the empty slice, otherwise
the Go loop started with `maxVal = slice[0]`, `maxIdx = 0`, iterating over the
whole slice from index 0.  The Go index is an `int32`; indices here stay far
below 2^31 so `ℕ` is faithful. -/
def argmax (slice : List ℚ) : Int :=
  match slice with
  | [] => 0
  | x :: _ => (argmaxAux slice x 0 0 : Int)

/-- The state threaded through the decode loop of `runDecoder`
(parakeet.go:369-411), plus the instrumentation field `sessions` counting
`ort.NewAdvancedSession` constructions performed so far. -/
structure DecState where
  tokens : List String
  lastEmitted : Int
  lastToken : Int
  state1 : List ℚ
  state2 : List ℚ
  sessions : ℕ

/-- Initial decode state (parakeet.go:370-378): no tokens, last-emitted
sentinel -1, last-token = blank id, both recurrent states zeroed at shape
[2,1,640]. -/
def initDecState (p : ParakeetModel) : DecState :=
  { tokens := []
    lastEmitted := -1
    lastToken := p.blankIdx
    state1 := List.replicate (2 * 1 * parakeetDecoderHiddenSize) 0
    state2 := List.replicate (2 * 1 * parakeetDecoderHiddenSize) 0
    sessions := 0 }

/-- The per-step state update of `runDecoder` (parakeet.go:396-410), given the
logits and new recurrent states returned by the decoder-joint call.  The Go
slice `logits[:vocabSize]` is `List.take` (the Go logits buffer always has
`V+5` elements, so the slice never panics), and the Go indexing
`p.vocab[bestToken]` is `getD` (in-bounds whenever the vocabulary is
non-empty, since `bestToken` indexes the takes prefix). -/
def decodeUpdate (p : ParakeetModel) (st : DecState)
    (logits newState1 newState2 : List ℚ) : DecState :=
  let vocabLogits := logits.take p.vocab.length
  let bestToken := argmax vocabLogits
  if bestToken ≠ p.blankIdx ∧ bestToken ≠ st.lastEmitted then
    { st with
      tokens := st.tokens ++ [p.vocab.getD bestToken.toNat ""]
      lastToken := bestToken
      lastEmitted := bestToken
      state1 := newState1
      state2 := newState2 }
  else if bestToken = p.blankIdx then
    { st with lastEmitted := -1 }
  else st

/-- The single-step tensor built at parakeet.go:382-388: element `k`
(for `k < 1024`) is `encoderOut[k*encoderLen + t]` when that flat index is
below the buffer length, else the zero the buffer was initialised with.
Inside the loop `t < encoderLen`, so the flat index is never negative (Go
would panic on a negative index; it cannot arise here). -/
def stepData (encoderOut : List ℚ) (encoderLen : Int) (t : ℕ) : List ℚ :=
  (List.range parakeetEncoderHiddenSize).map (fun (k : ℕ) =>
    let idx : Int := (k : Int) * encoderLen + (t : Int)
    if idx < (encoderOut.length : Int) then encoderOut.getD idx.toNat 0 else 0)

/-- Entry (0, k, t) of a row-major [1, 1024, timeDim] buffer: flat index
`k * timeDim + t`. -/
def rowMajorEntry (data : List ℚ) (timeDim k t : ℕ) : ℚ :=
  data.getD (k * timeDim + t) 0

/-- What the decoder-joint session returns into the caller-allocated output
tensors of `decoderStep`. -/
structure DecoderJointResult where
  logits : List ℚ
  newState1 : List ℚ
  newState2 : List ℚ

/-- Oracle for one `decoderStep` call: arguments are the encoder step slice,
the target token, and the two recurrent states; an error abstracts any
failure inside `decoderStep`. -/
def DecoderSession : Type :=
  List ℚ → Int → List ℚ → List ℚ → Except String DecoderJointResult

/-- The decode loop of `runDecoder` (parakeet.go:380-411) over the remaining
step indices.  Each executed step performs exactly one session construction
inside `decoderStep` (parakeet.go:473-480), counted in `sessions`; a failing
step stops the loop with the wrapped step error. -/
def runDecoderLoop (sess : DecoderSession) (p : ParakeetModel)
    (encoderOut : List ℚ) (encoderLen : Int) :
    List ℕ → DecState → DecState × Option String
  | [], st => (st, none)
  | t :: ts, st =>
    match sess (stepData encoderOut encoderLen t) st.lastToken st.state1 st.state2 with
    | .error e => (st, some ("decoder step error at t=" ++ toString t ++ ": " ++ e))
    | .ok r =>
      runDecoderLoop sess p encoderOut encoderLen ts
        (decodeUpdate p { st with sessions := st.sessions + 1 }
          r.logits r.newState1 r.newState2)

/-- The post-processing of parakeet.go:414-417: join the emitted tokens,
replace the sub-word marker (both `ReplaceAll` calls substitute the same
U+2581 character) with a space, and trim surrounding whitespace. -/
def postProcess (tokens : List String) : String :=
  (((String.join tokens).replace "▁" " ").replace "▁" " ").trim

/-- Model of `runDecoder` (parakeet.go:369-418).  The Go `for t := range
encoderLen` iterates `t = 0, ..., encoderLen-1` (and not at all when
`encoderLen ≤ 0`).  The second component of a successful result is the
instrumented count of decoder-joint session constructions. -/
def runDecoder (sess : DecoderSession) (p : ParakeetModel)
    (encoderOut : List ℚ) (encoderLen : Int) : Except String (String × ℕ) :=
  match runDecoderLoop sess p encoderOut encoderLen
      (List.range encoderLen.toNat) (initDecState p) with
  | (_, some e) => .error e
  | (st, none) => .ok (postProcess st.tokens, st.sessions)

/-- The pre-sized time dimension of the preprocessor output tensor
(parakeet.go:272): `samplesLen/160 + 1`. -/
def expectedTimeSteps (samplesLen : ℕ) : ℕ := samplesLen / parakeetHopLength + 1

/-- What the preprocessor session writes into the caller-allocated outputs:
a fill for the features tensor (materialised over its allocated size) and
the reported valid length. -/
structure PreprocessorResult where
  featFill : ℕ → ℚ
  featLen : Int

/-- Oracle for one `runPreprocessor` call; an error abstracts any failure
inside the function (its message is the already-wrapped message the Go
function returns). -/
def PreprocessorSession : Type := List ℚ → Except String PreprocessorResult

/-- Model of `runPreprocessor` (parakeet.go:255-310): the features buffer
copied out has exactly the allocated `1*128*(N/160+1)` elements, the valid
length is whatever the session reported. -/
def runPreprocessor (sess : PreprocessorSession) (samples : List ℚ) :
    Except String (List ℚ × Int) :=
  match sess samples with
  | .error e => .error e
  | .ok r =>
    .ok ((List.range (parakeetNumMelBins * expectedTimeSteps samples.length)).map
          r.featFill, r.featLen)

/-- The inputs `runEncoder` hands to the encoder session: tensor shape,
tensor data, and the scalar length input. -/
structure EncoderInput where
  shape : List Int
  data : List ℚ
  length : Int

/-- The encoder session inputs built at parakeet.go:313-326: the audio_signal
tensor has shape (1, 128, len(features)/128) and carries the whole features
buffer; the length tensor carries `featuresLen`. -/
def runEncoderInput (features : List ℚ) (featuresLen : Int) : EncoderInput :=
  { shape := [1, (parakeetNumMelBins : Int), ((features.length / parakeetNumMelBins : ℕ) : Int)]
    data := features
    length := featuresLen }

/-- The pre-sized encoder output time dimension (parakeet.go:329):
`(featuresLen + 8 - 1) / 8` in Go int64 division (truncated). -/
def encoderTimeSteps (featuresLen : Int) : Int :=
  Int.tdiv (featuresLen + parakeetSubsamplingFactor - 1) parakeetSubsamplingFactor

/-- What the encoder session writes into the caller-allocated outputs. -/
structure EncoderResult where
  encFill : ℕ → ℚ
  encLen : Int

/-- Oracle for one `runEncoder` call. -/
def EncoderSession : Type := EncoderInput → Except String EncoderResult

/-- Model of `runEncoder` (parakeet.go:312-367): the copied-out encoder
buffer has exactly the allocated `1*1024*ceil(featuresLen/8)` elements. -/
def runEncoder (sess : EncoderSession) (features : List ℚ) (featuresLen : Int) :
    Except String (List ℚ × Int) :=
  match sess (runEncoderInput features featuresLen) with
  | .error e => .error e
  | .ok r =>
    .ok ((List.range (parakeetEncoderHiddenSize * (encoderTimeSteps featuresLen).toNat)).map
          r.encFill, r.encLen)

/-- The three session oracles a transcription runs against. -/
structure Oracles where
  pre : PreprocessorSession
  enc : EncoderSession
  dec : DecoderSession

/-- Model of `Transcribe` (parakeet.go:229-253).  The first component is the
Go return pair: `(text, nil)` on success, `("", err)` on failure, with each
stage failure wrapped with the stage name.  The second component counts the
`ort.NewAdvancedSession` constructions that certainly happened (one per
completed preprocessor and encoder call, one per executed decode step); on a
failing stage the count of that stage is a lower bound, which no theorem
below relies on. -/
def transcribe (o : Oracles) (p : ParakeetModel) (samples : List ℚ) :
    (String × Option String) × ℕ :=
  if p.vocab.length = 0 then
    (("", some "vocabulary not loaded, call LoadVocabulary first"), 0)
  else
    match runPreprocessor o.pre samples with
    | .error e => (("", some ("preprocessor error: " ++ e)), 0)
    | .ok (features, featuresLen) =>
      match runEncoder o.enc features featuresLen with
      | .error e => (("", some ("encoder error: " ++ e)), 1)
      | .ok (encoderOut, encoderLen) =>
        match runDecoder o.dec p encoderOut encoderLen with
        | .error e => (("", some ("decoder error: " ++ e)), 2)
        | .ok (text, n) => ((text, none), 2 + n)

/-- Model of `convertToMono` (part_006:138-151): each output sample is the
mean of the `numChannels` interleaved samples at that frame. -/
def convertToMono (samples : List ℚ) (numChannels : ℕ) : List ℚ :=
  (List.range (samples.length / numChannels)).map (fun (i : ℕ) =>
    (((List.range numChannels).map (fun (ch : ℕ) => samples.getD (i * numChannels + ch) 0)).sum)
      / (numChannels : ℚ))

/-- The loop body of `resample` (part_006:163-175): source position
`pos = i*ratio`, floor index, fractional part, upper index clamped to the
last valid sample, linear blend.  Go float64 arithmetic is modelled exactly
over `ℚ`; `int(pos)` truncates toward zero, which on the non-negative `pos`
arising here is `Rat.floor`.  The Go indexing `input[low]`/`input[high]` is
`getD` (both indices are proved in bounds in the C7 theorem, so the default
is never read). -/
def resamplePoint (input : List ℚ) (ratio : ℚ) (i : ℕ) : ℚ :=
  let pos : ℚ := (i : ℚ) * ratio
  let index : ℕ := (Rat.floor pos).toNat
  let frac : ℚ := pos - (index : ℚ)
  let low := index
  let high := if input.length ≤ index + 1 then input.length - 1 else index + 1
  (1 - frac) * input.getD low 0 + frac * input.getD high 0

/-- Model of `resample` (part_006:154-178): identity when the rates match,
else `targetLength = int(len/ratio)` linear-interpolation points. -/
def resample (input : List ℚ) (fromRate toRate : ℕ) : List ℚ :=
  if fromRate = toRate then input
  else
    (List.range ((Rat.floor ((input.length : ℚ) / ((fromRate : ℚ) / (toRate : ℚ)))).toNat)).map
      (resamplePoint input ((fromRate : ℚ) / (toRate : ℚ)))

/-- The decoded PCM buffer as the go-audio/wav decoder presents it to
`processWAVBytes`: integer samples plus format metadata. -/
structure PCMBuffer where
  data : List Int
  numChannels : Int
  sampleRate : Int

/-- Model of `processWAVBytes` (part_006:95-135) from the decoded buffer on
(container parsing abstracted away): normalize each integer sample by 32768,
downmix when more than one channel, resample when the rate is not 16000. -/
def processWAVBytes (buf : PCMBuffer) : List ℚ :=
  let rawSamples := buf.data.map (fun (v : Int) => (v : ℚ) / 32768)
  let monoSamples :=
    if 1 < buf.numChannels then convertToMono rawSamples buf.numChannels.toNat
    else rawSamples
  if buf.sampleRate ≠ 16000 then resample monoSamples buf.sampleRate.toNat 16000
  else monoSamples

/-! ## Shared concrete instances used by witnesses and counterexamples -/

/-- A small loaded model: two tokens, blank id 1. -/
def sampleModel : ParakeetModel := { vocab := ["a", "b"], blankIdx := 1 }

/-- The decode state at the start of a `runDecoder` call on `sampleModel`. -/
def sampleState : DecState := initDecState sampleModel

/-- Preprocessor oracle that always succeeds, reporting valid length 1. -/
def okPre : PreprocessorSession := fun _ => .ok { featFill := fun _ => 0, featLen := 1 }

/-- Encoder oracle that always succeeds, reporting valid length 1. -/
def okEnc : EncoderSession := fun _ => .ok { encFill := fun _ => 0, encLen := 1 }

/-- Decoder-joint oracle that always succeeds with all-zero logits. -/
def okDec : DecoderSession :=
  fun _ _ _ _ => .ok { logits := [0, 0], newState1 := [], newState2 := [] }

/-- A fully successful oracle triple. -/
def okOracles : Oracles := { pre := okPre, enc := okEnc, dec := okDec }

/-! ## C1: the three-way greedy TDT transition policy -/

/-- C1: at every decode step the transition obeys the three-way policy.
If the arg-max over the vocabulary prefix of the logits equals the blank id,
the recurrent states, the token list and the last-token are unchanged and
last-emitted is reset to -1; if it is non-blank but equals last-emitted,
the state is unchanged entirely (nothing appended, no state advance); and
otherwise the token is appended, last-emitted and last-token become that
token, and the session's new recurrent states are adopted. -/
theorem c1_decode_policy (p : ParakeetModel) (st : DecState)
    (logits ns1 ns2 : List ℚ) :
    (argmax (logits.take p.vocab.length) = p.blankIdx →
      decodeUpdate p st logits ns1 ns2 = { st with lastEmitted := -1 }) ∧
    (argmax (logits.take p.vocab.length) ≠ p.blankIdx →
      argmax (logits.take p.vocab.length) = st.lastEmitted →
      decodeUpdate p st logits ns1 ns2 = st) ∧
    (argmax (logits.take p.vocab.length) ≠ p.blankIdx →
      argmax (logits.take p.vocab.length) ≠ st.lastEmitted →
      decodeUpdate p st logits ns1 ns2 =
        { st with
          tokens := st.tokens ++ [p.vocab.getD (argmax (logits.take p.vocab.length)).toNat ""]
          lastToken := argmax (logits.take p.vocab.length)
          lastEmitted := argmax (logits.take p.vocab.length)
          state1 := ns1
          state2 := ns2 }) := by
  refine ⟨fun h => ?_, fun h1 h2 => ?_, fun h1 h2 => ?_⟩
  · simp [decodeUpdate, h]
  · simp only [decodeUpdate, h2]
    rw [if_neg (by simp), if_neg (fun h => h1 (h2.trans h))]
  · simp [decodeUpdate, h1, h2]

/-- Witness for C1: on `sampleModel` with logits [5, 3], the arg-max is
token 0, which is non-blank and not the last emitted, so the emit branch
fires. -/
theorem c1_decode_policy_witness :
    decodeUpdate sampleModel sampleState [5, 3] [] [] =
      { sampleState with
        tokens := sampleState.tokens ++
          [sampleModel.vocab.getD
            (argmax (([5, 3] : List ℚ).take sampleModel.vocab.length)).toNat ""]
        lastToken := argmax (([5, 3] : List ℚ).take sampleModel.vocab.length)
        lastEmitted := argmax (([5, 3] : List ℚ).take sampleModel.vocab.length)
        state1 := []
        state2 := [] } :=
  (c1_decode_policy sampleModel sampleState [5, 3] [] []).2.2 (by decide) (by decide)

/-! ## C2: blank index of the loaded vocabulary -/

/-- C2 evaluation at the failing input: a vocabulary file whose first line is
blank and whose second line is the `<blk>` marker.  The loader returns the
source line number of the marker (1), while the marker's index in the
returned token list is 0 — the index the claim (and the loader's own
`len(vocab)-1` fallback, and every consumer of `blankIdx`) expects. -/
theorem c2_blank_index_eval :
    loadVocabulary ["", "<blk>", "a"] = (["<blk>", "a"], 1) ∧
    (["<blk>", "a"] : List String).indexOf "<blk>" = 0 ∧
    (1 : Int) ≠ 0 := by
  refine ⟨?_, by decide, by decide⟩
  decide

/-- Reading a materialised fill buffer at an in-range index yields the fill
value there. -/
theorem getD_map_range (N : ℕ) (f : ℕ → ℚ) (k : ℕ) (hk : k < N) (d : ℚ) :
    ((List.range N).map f).getD k d = f k := by
  rw [List.getD_eq_getElem _ _ (by simpa using hk), List.getElem_map, List.getElem_range]

/-! ## C3: what is passed to the encoder session -/

/-- Preprocessor oracle reporting valid length 2 (smaller than the allocated
time dimension). -/
def padPre : PreprocessorSession := fun _ => .ok { featFill := fun _ => 0, featLen := 2 }

/-- 320 zero samples: the preprocessor output is allocated 320/160+1 = 3 time
frames. -/
def c3Samples : List ℚ := List.replicate 320 0

/-- The features buffer `runPreprocessor` copies out for `c3Samples`:
128 x 3 elements. -/
def c3Features : List ℚ := (List.range (128 * 3)).map (fun _ => 0)

/-- Counterexample to C3: with extractor-reported valid length T1' = 2 on a
buffer allocated for 3 frames, the tensor handed to the encoder has time
dimension 3 and 384 data elements — not the claimed cropped shape
[1,128,T1'] with 128*2 elements. -/
theorem c3_counterexample :
    runPreprocessor padPre c3Samples = .ok (c3Features, 2) ∧
    (runEncoderInput c3Features 2).shape = [1, 128, 3] ∧
    c3Features.length = 384 ∧
    (384 : ℕ) ≠ 128 * 2 := by
  have hl : c3Features.length = 384 := by
    rw [c3Features, List.length_map, List.length_range]
  refine ⟨rfl, ?_, hl, by decide⟩
  rw [runEncoderInput]
  simp only [hl]
  norm_num [parakeetNumMelBins]

/-- C3 amended: the features tensor passed to the encoder session is the
extractor's full output, uncropped — its data is the whole features buffer of
128*(⌊N/160⌋+1) elements and its time dimension is ⌊N/160⌋+1, regardless of
the extractor-reported valid length T1'; only the separate length input
equals T1'. -/
theorem c3_encoder_input_full (pre : PreprocessorSession)
    (samples features : List ℚ) (L : Int)
    (h : runPreprocessor pre samples = .ok (features, L)) :
    features.length = 128 * (samples.length / 160 + 1) ∧
    (runEncoderInput features L).shape
      = [1, 128, ((samples.length / 160 + 1 : ℕ) : Int)] ∧
    (runEncoderInput features L).data = features ∧
    (runEncoderInput features L).length = L := by
  unfold runPreprocessor at h
  cases hs : pre samples with
  | error e => rw [hs] at h; cases h
  | ok r =>
    rw [hs] at h
    simp only [Except.ok.injEq, Prod.mk.injEq] at h
    obtain ⟨hf, -⟩ := h
    have hlen : features.length = 128 * (samples.length / 160 + 1) := by
      rw [← hf]
      simp [expectedTimeSteps, parakeetNumMelBins, parakeetHopLength]
    refine ⟨hlen, ?_, rfl, rfl⟩
    simp only [runEncoderInput, parakeetNumMelBins, hlen]
    rw [Nat.mul_div_cancel_left _ (by norm_num)]
    norm_num

/-- Witness for C3's amended theorem at the concrete pipeline above. -/
theorem c3_encoder_input_full_witness :
    c3Features.length = 128 * (c3Samples.length / 160 + 1) ∧
    (runEncoderInput c3Features 2).shape
      = [1, 128, ((c3Samples.length / 160 + 1 : ℕ) : Int)] ∧
    (runEncoderInput c3Features 2).data = c3Features ∧
    (runEncoderInput c3Features 2).length = 2 :=
  c3_encoder_input_full padPre c3Samples c3Features 2 rfl

/-! ## C4: the per-step slice of the encoder output -/

/-- Encoder oracle that fills the output buffer with its flat index and
reports valid length 2. -/
def c4Enc : EncoderSession := fun _ => .ok { encFill := fun n => (n : ℚ), encLen := 2 }

/-- A features buffer of 3 allocated frames (any contents). -/
def c4Features : List ℚ := List.replicate 384 0

/-- The encoder output buffer for featuresLen = 17: allocated
T2 = ceil(17/8) = 3 time steps, 1024*3 elements, element n holding n. -/
def c4Out : List ℚ := (List.range (1024 * 3)).map (fun (n : ℕ) => (n : ℚ))

/-- Counterexample to C4: with reported valid length T2' = 2 on a buffer
allocated for T2 = 3 time steps, the step tensor at t = 0 holds, at hidden
dimension k = 1, the buffer element at flat index 1*2+0 = 2 (stride T2'),
not the claimed element (0,1,0) of the [1,1024,3] layout at flat index
1*3+0 = 3. -/
theorem c4_counterexample :
    runEncoder c4Enc c4Features 17 = .ok (c4Out, 2) ∧
    encoderTimeSteps 17 = 3 ∧
    (stepData c4Out 2 0).getD 1 0 = 2 ∧
    rowMajorEntry c4Out 3 1 0 = 3 ∧
    ((2 : ℚ)) ≠ 3 := by
  have hlen : c4Out.length = 3072 := by
    rw [c4Out, List.length_map, List.length_range]
  refine ⟨rfl, by decide, ?_, ?_, by decide⟩
  · have e1 : (stepData c4Out 2 0).getD 1 0
        = (if ((1 : ℕ) : Int) * 2 + ((0 : ℕ) : Int) < (c4Out.length : Int)
           then c4Out.getD (((1 : ℕ) : Int) * 2 + ((0 : ℕ) : Int)).toNat 0 else 0) := by
      rw [stepData,
        getD_map_range parakeetEncoderHiddenSize _ 1 (by norm_num [parakeetEncoderHiddenSize])]
    have e2 : (((1 : ℕ) : Int) * 2 + ((0 : ℕ) : Int)) = (2 : Int) := by norm_num
    rw [e1, e2, hlen, if_pos (by norm_num : (2 : Int) < ((3072 : ℕ) : Int))]
    rw [show ((2 : Int)).toNat = 2 from rfl]
    rw [c4Out, getD_map_range (1024 * 3) _ 2 (by norm_num)]
    norm_num
  · rw [rowMajorEntry, show (1 * 3 + 0 : ℕ) = 3 from rfl]
    rw [c4Out, getD_map_range (1024 * 3) _ 3 (by norm_num)]
    norm_num

/-- C4 amended: the step tensor has 1024 entries and its element at hidden
dimension k is the encoder-output buffer entry at flat index
k*T2' + t — the (0,k,t) entry of a row-major [1,1024,T2'] layout, where T2'
is the session-reported valid length (0 when the index runs past the
buffer).  This agrees with the claimed [1,1024,T2] layout (T2 = ⌈T1'/8⌉
allocated) exactly when T2' = T2. -/
theorem c4_step_slice (encoderOut : List ℚ) (encoderLen : Int) (t k : ℕ)
    (hk : k < 1024) (ht : (t : Int) < encoderLen) :
    (stepData encoderOut encoderLen t).length = 1024 ∧
    (stepData encoderOut encoderLen t).getD k 0
      = rowMajorEntry encoderOut encoderLen.toNat k t := by
  have hel : 0 ≤ encoderLen := le_of_lt (lt_of_le_of_lt (Int.natCast_nonneg t) ht)
  have hidx : ((k : Int) * encoderLen + (t : Int)) = ((k * encoderLen.toNat + t : ℕ) : Int) := by
    push_cast [Int.toNat_of_nonneg hel]
    ring
  refine ⟨by rw [stepData, List.length_map, List.length_range]; rfl, ?_⟩
  rw [stepData, getD_map_range parakeetEncoderHiddenSize _ _ hk]
  show (if (k : Int) * encoderLen + (t : Int) < (encoderOut.length : Int) then
      encoderOut.getD ((k : Int) * encoderLen + (t : Int)).toNat 0 else 0)
    = rowMajorEntry encoderOut encoderLen.toNat k t
  rw [hidx]
  by_cases hlt : ((k * encoderLen.toNat + t : ℕ) : Int) < (encoderOut.length : Int)
  · rw [if_pos hlt, rowMajorEntry, Int.toNat_natCast]
  · rw [if_neg hlt, rowMajorEntry,
      List.getD_eq_default _ _ (by exact_mod_cast not_lt.mp hlt)]

/-- Witness for C4's amended theorem: a 1024-element buffer with T2' = 1. -/
theorem c4_step_slice_witness :
    (stepData (List.replicate 1024 0) 1 0).length = 1024 ∧
    (stepData (List.replicate 1024 0) 1 0).getD 5 0
      = rowMajorEntry (List.replicate 1024 0) (1 : Int).toNat 5 0 :=
  c4_step_slice (List.replicate 1024 0) 1 0 5 (by decide) (by decide)

/-! ## C5: session constructions per call -/

/-- The policy update never touches the instrumentation counter. -/
theorem decodeUpdate_sessions (p : ParakeetModel) (st : DecState)
    (logits ns1 ns2 : List ℚ) :
    (decodeUpdate p st logits ns1 ns2).sessions = st.sessions := by
  rw [decodeUpdate]
  split
  · rfl
  · split <;> rfl

/-- An error-free decode loop performs one session construction per step. -/
theorem runDecoderLoop_sessions (sess : DecoderSession) (p : ParakeetModel)
    (eo : List ℚ) (el : Int) (ts : List ℕ) :
    ∀ st : DecState,
      (runDecoderLoop sess p eo el ts st).2 = none →
      (runDecoderLoop sess p eo el ts st).1.sessions = st.sessions + ts.length := by
  induction ts with
  | nil => intro st _; simp [runDecoderLoop]
  | cons t ts ih =>
    intro st h
    rw [runDecoderLoop] at h ⊢
    cases hs : sess (stepData eo el t) st.lastToken st.state1 st.state2 with
    | error e => rw [hs] at h; cases h
    | ok r =>
      rw [hs] at h
      dsimp only at h ⊢
      rw [ih _ h, decodeUpdate_sessions]
      simp only [List.length_cons]
      omega

/-- C5 amended: sessions are not reused across calls — a successful
`Transcribe` performs 2 + T2' session constructions: one preprocessor
session, one encoder session, and one decoder-joint session per decode step
(T2' = the encoder-reported valid length). -/
theorem c5_sessions_per_call (o : Oracles) (p : ParakeetModel)
    (samples features eo : List ℚ) (L el : Int) (text : String) (n : ℕ)
    (hvocab : p.vocab.length ≠ 0)
    (hpre : runPreprocessor o.pre samples = .ok (features, L))
    (henc : runEncoder o.enc features L = .ok (eo, el))
    (hdec : runDecoder o.dec p eo el = .ok (text, n)) :
    (transcribe o p samples).2 = 2 + el.toNat := by
  have hn : n = el.toNat := by
    rw [runDecoder] at hdec
    cases hl : runDecoderLoop o.dec p eo el (List.range el.toNat) (initDecState p) with
    | mk st os =>
      cases os with
      | some e => rw [hl] at hdec; cases hdec
      | none =>
        rw [hl] at hdec
        simp only [Except.ok.injEq, Prod.mk.injEq] at hdec
        have hses := runDecoderLoop_sessions o.dec p eo el (List.range el.toNat)
          (initDecState p) (by rw [hl])
        rw [hl] at hses
        simp only [List.length_range, initDecState] at hses
        obtain ⟨-, h2⟩ := hdec
        omega
  simp [transcribe, hvocab, hpre, henc, hdec, hn]

/-- Counterexample to C5: a concrete successful transcription (one encoder
frame) constructs 3 sessions — one per stage driver call — where the claim
demands that no call after initialization constructs any. -/
theorem c5_counterexample :
    (transcribe okOracles sampleModel []).2 = 3 ∧ (3 : ℕ) ≠ 0 :=
  ⟨rfl, by decide⟩

/-- Witness for C5's amended count at the same concrete successful run. -/
theorem c5_sessions_per_call_witness :
    (transcribe okOracles sampleModel []).2 = 2 + (1 : Int).toNat :=
  c5_sessions_per_call okOracles sampleModel []
    ((List.range (128 * 1)).map (fun (_ : ℕ) => 0))
    ((List.range (1024 * 1)).map (fun (_ : ℕ) => 0)) 1 1
    (postProcess ([] ++ [sampleModel.vocab.getD (0 : Int).toNat ""])) 1
    (by decide) rfl rfl rfl

/-! ## C6: the normalizer is the identity on mono 16 kHz input -/

/-- C6: for a decoded WAV buffer that is already mono at 16 kHz, the
normalizer applies no resampling and no channel mixing — the output is
exactly the decoded sample sequence (each stored integer sample carried
through the uniform 1/32768 amplitude normalization of the decode step, which
applies on every path), with the sample count unchanged. -/
theorem c6_mono16k_identity (buf : PCMBuffer)
    (hmono : buf.numChannels = 1) (hrate : buf.sampleRate = 16000) :
    processWAVBytes buf = buf.data.map (fun (v : Int) => (v : ℚ) / 32768) ∧
    (processWAVBytes buf).length = buf.data.length := by
  have h : processWAVBytes buf = buf.data.map (fun (v : Int) => (v : ℚ) / 32768) := by
    rw [processWAVBytes, hmono, hrate]
    norm_num
  exact ⟨h, by rw [h, List.length_map]⟩

/-- A concrete mono 16 kHz decoded buffer. -/
def wavBuf : PCMBuffer := { data := [16384, -32768, 0], numChannels := 1, sampleRate := 16000 }

/-- Witness for C6 at `wavBuf`. -/
theorem c6_mono16k_identity_witness :
    processWAVBytes wavBuf = wavBuf.data.map (fun (v : Int) => (v : ℚ) / 32768) ∧
    (processWAVBytes wavBuf).length = wavBuf.data.length :=
  c6_mono16k_identity wavBuf rfl rfl

/-! ## C7: the linear-interpolation resampler -/

/-- When the floor index is in bounds, the Go clamp `if high >= len` is the
min-with-last-valid-sample clamp of the claim. -/
theorem resamplePoint_eq (input : List ℚ) (ratio : ℚ) (i : ℕ)
    (hidx : (Rat.floor ((i : ℚ) * ratio)).toNat < input.length) :
    resamplePoint input ratio i =
      (1 - ((i : ℚ) * ratio - ((Rat.floor ((i : ℚ) * ratio)).toNat : ℚ)))
        * input.getD (Rat.floor ((i : ℚ) * ratio)).toNat 0
      + ((i : ℚ) * ratio - ((Rat.floor ((i : ℚ) * ratio)).toNat : ℚ))
        * input.getD (min ((Rat.floor ((i : ℚ) * ratio)).toNat + 1) (input.length - 1)) 0 := by
  rw [resamplePoint,
    show (if input.length ≤ (Rat.floor ((i : ℚ) * ratio)).toNat + 1
          then input.length - 1 else (Rat.floor ((i : ℚ) * ratio)).toNat + 1)
        = min ((Rat.floor ((i : ℚ) * ratio)).toNat + 1) (input.length - 1) by
      split <;> omega]

/-- C7: for a mono input resampled from a rate other than 16000 Hz, the
output length is exactly ⌊len·16000/fromRate⌋ (= ⌊len/(fromRate/16000)⌋, so
in particular within the claimed off-by-one tolerance), and output sample i
is the linear blend, by the fractional part of pos = i·(fromRate/16000), of
the inputs at ⌊pos⌋ and ⌊pos⌋+1 with the upper index clamped to the last
valid sample; the floor index itself is always in bounds. -/
theorem c7_resample_linear (input : List ℚ) (fromRate : ℕ)
    (hne : fromRate ≠ 16000) (hpos : 0 < fromRate) :
    (resample input fromRate 16000).length
      = (Rat.floor ((input.length : ℚ) * 16000 / (fromRate : ℚ))).toNat ∧
    ∀ i, i < (resample input fromRate 16000).length →
      (Rat.floor ((i : ℚ) * ((fromRate : ℚ) / 16000))).toNat < input.length ∧
      (resample input fromRate 16000).getD i 0 =
        (1 - ((i : ℚ) * ((fromRate : ℚ) / 16000)
            - ((Rat.floor ((i : ℚ) * ((fromRate : ℚ) / 16000))).toNat : ℚ)))
          * input.getD (Rat.floor ((i : ℚ) * ((fromRate : ℚ) / 16000))).toNat 0
        + ((i : ℚ) * ((fromRate : ℚ) / 16000)
            - ((Rat.floor ((i : ℚ) * ((fromRate : ℚ) / 16000))).toNat : ℚ))
          * input.getD
              (min ((Rat.floor ((i : ℚ) * ((fromRate : ℚ) / 16000))).toNat + 1)
                (input.length - 1)) 0 := by
  have hfrq : (0 : ℚ) < (fromRate : ℚ) := by exact_mod_cast hpos
  have hratio : (0 : ℚ) < (fromRate : ℚ) / 16000 := by positivity
  have hunf : resample input fromRate 16000
      = (List.range ((Rat.floor ((input.length : ℚ) / ((fromRate : ℚ) / 16000))).toNat)).map
          (resamplePoint input ((fromRate : ℚ) / 16000)) := by
    rw [resample, if_neg hne]
    norm_num
  have hlen : (resample input fromRate 16000).length
      = (Rat.floor ((input.length : ℚ) / ((fromRate : ℚ) / 16000))).toNat := by
    rw [hunf, List.length_map, List.length_range]
  constructor
  · rw [hlen, div_div_eq_mul_div]
  · intro i hi
    rw [hlen] at hi
    have h1 : ((i : ℤ)) < Rat.floor ((input.length : ℚ) / ((fromRate : ℚ) / 16000)) :=
      Int.lt_toNat.mp hi
    have h2 : ((i : ℚ) + 1) ≤ (input.length : ℚ) / ((fromRate : ℚ) / 16000) := by
      have h2a := Rat.le_floor.mp (by omega : (i : ℤ) + 1 ≤
        Rat.floor ((input.length : ℚ) / ((fromRate : ℚ) / 16000)))
      push_cast at h2a
      linarith
    have hposlt : (i : ℚ) * ((fromRate : ℚ) / 16000) < (input.length : ℚ) := by
      have h3 : (i : ℚ) < (input.length : ℚ) / ((fromRate : ℚ) / 16000) := by linarith
      calc (i : ℚ) * ((fromRate : ℚ) / 16000)
          < ((input.length : ℚ) / ((fromRate : ℚ) / 16000)) * ((fromRate : ℚ) / 16000) :=
            mul_lt_mul_of_pos_right h3 hratio
        _ = (input.length : ℚ) := div_mul_cancel₀ _ (ne_of_gt hratio)
    have hfl : Rat.floor ((i : ℚ) * ((fromRate : ℚ) / 16000)) < (input.length : ℤ) := by
      by_contra hc
      push_neg at hc
      have hc2 := Rat.le_floor.mp hc
      push_cast at hc2
      linarith
    have hfl0 : 0 ≤ Rat.floor ((i : ℚ) * ((fromRate : ℚ) / 16000)) := by
      refine Rat.le_floor.mpr ?_
      push_cast
      positivity
    have hidx : (Rat.floor ((i : ℚ) * ((fromRate : ℚ) / 16000))).toNat < input.length := by
      omega
    refine ⟨hidx, ?_⟩
    rw [hunf, getD_map_range _ _ _ hi]
    exact resamplePoint_eq input ((fromRate : ℚ) / 16000) i hidx

/-- A concrete 4-sample 32 kHz input. -/
def w32Input : List ℚ := [0, 1, 0, 1]

/-- Witness for C7 at `w32Input`, instantiating the per-sample formula at
output index 1. -/
theorem c7_resample_linear_witness :
    (resample w32Input 32000 16000).length
      = (Rat.floor ((w32Input.length : ℚ) * 16000 / ((32000 : ℕ) : ℚ))).toNat ∧
    (Rat.floor (((1 : ℕ) : ℚ) * (((32000 : ℕ) : ℚ) / 16000))).toNat < w32Input.length ∧
    (resample w32Input 32000 16000).getD 1 0 =
      (1 - (((1 : ℕ) : ℚ) * (((32000 : ℕ) : ℚ) / 16000)
          - ((Rat.floor (((1 : ℕ) : ℚ) * (((32000 : ℕ) : ℚ) / 16000))).toNat : ℚ)))
        * w32Input.getD (Rat.floor (((1 : ℕ) : ℚ) * (((32000 : ℕ) : ℚ) / 16000))).toNat 0
      + (((1 : ℕ) : ℚ) * (((32000 : ℕ) : ℚ) / 16000)
          - ((Rat.floor (((1 : ℕ) : ℚ) * (((32000 : ℕ) : ℚ) / 16000))).toNat : ℚ))
        * w32Input.getD
            (min ((Rat.floor (((1 : ℕ) : ℚ) * (((32000 : ℕ) : ℚ) / 16000))).toNat + 1)
              (w32Input.length - 1)) 0 := by
  have hmain := c7_resample_linear w32Input 32000 (by decide) (by decide)
  have hlen2 : (resample w32Input 32000 16000).length = 2 := by
    rw [hmain.1]
    have h4 : (w32Input.length : ℚ) = 4 := by norm_num [w32Input]
    rw [h4, show ((32000 : ℕ) : ℚ) = (32000 : ℚ) by norm_num,
      show (4 : ℚ) * 16000 / (32000 : ℚ) = 2 by norm_num,
      show Rat.floor (2 : ℚ) = ⌊(2 : ℚ)⌋ from rfl]
    norm_num
    decide
  have hinst := hmain.2 1 (by omega)
  exact ⟨hmain.1, hinst.1, hinst.2⟩

/-! ## C8: determinism and the arg-max tie-breaking rule -/

/-- Invariant of the Go argmax loop: starting from running maximum `maxVal`
at index `maxIdx < i`, either no remaining value strictly exceeds the running
maximum and the answer is `maxIdx`, or the answer is `i + k` for the first
remaining position `k` whose value strictly exceeds everything before it and
weakly dominates everything in the remainder. -/
theorem argmaxAux_spec (rest : List ℚ) :
    ∀ (maxVal : ℚ) (maxIdx i : ℕ), maxIdx < i →
      (argmaxAux rest maxVal maxIdx i = maxIdx ∧
        ∀ m, m < rest.length → rest.getD m 0 ≤ maxVal) ∨
      (∃ k, k < rest.length ∧
        argmaxAux rest maxVal maxIdx i = i + k ∧
        maxVal < rest.getD k 0 ∧
        (∀ m, m < rest.length → rest.getD m 0 ≤ rest.getD k 0) ∧
        (∀ m, m < k → rest.getD m 0 < rest.getD k 0)) := by
  induction rest with
  | nil =>
    intro maxVal maxIdx i _
    exact Or.inl ⟨rfl, fun m hm => absurd hm (Nat.not_lt_zero m)⟩
  | cons v rest ih =>
    intro maxVal maxIdx i hlt
    by_cases hv : maxVal < v
    · have hstep : argmaxAux (v :: rest) maxVal maxIdx i = argmaxAux rest v i (i + 1) := by
        simp [argmaxAux, hv]
      rcases ih v i (i + 1) (by omega) with ⟨heq, hall⟩ | ⟨k, hk, heq, hgt, hmax, hstrict⟩
      · refine Or.inr ⟨0, by simp, by rw [hstep, heq]; omega, by simpa using hv, ?_, ?_⟩
        · intro m hm
          cases m with
          | zero => simp
          | succ m2 =>
            simpa using hall m2 (by simpa using hm)
        · intro m hm
          exact absurd hm (Nat.not_lt_zero m)
      · refine Or.inr ⟨k + 1, by simpa using hk, by rw [hstep, heq]; omega, ?_, ?_, ?_⟩
        · simpa using lt_trans hv hgt
        · intro m hm
          cases m with
          | zero => simpa using le_of_lt hgt
          | succ m2 => simpa using hmax m2 (by simpa using hm)
        · intro m hm
          cases m with
          | zero => simpa using hgt
          | succ m2 => simpa using hstrict m2 (by omega)
    · have hstep : argmaxAux (v :: rest) maxVal maxIdx i
          = argmaxAux rest maxVal maxIdx (i + 1) := by
        simp [argmaxAux, hv]
      have hvle : v ≤ maxVal := not_lt.mp hv
      rcases ih maxVal maxIdx (i + 1) (by omega) with ⟨heq, hall⟩ | ⟨k, hk, heq, hgt, hmax, hstrict⟩
      · refine Or.inl ⟨by rw [hstep, heq], ?_⟩
        intro m hm
        cases m with
        | zero => simpa using hvle
        | succ m2 => simpa using hall m2 (by simpa using hm)
      · refine Or.inr ⟨k + 1, by simpa using hk, by rw [hstep, heq]; omega, ?_, ?_, ?_⟩
        · simpa using hgt
        · intro m hm
          cases m with
          | zero => simpa using le_of_lt (lt_of_le_of_lt hvle hgt)
          | succ m2 => simpa using hmax m2 (by simpa using hm)
        · intro m hm
          cases m with
          | zero => simpa using lt_of_le_of_lt hvle hgt
          | succ m2 => simpa using hstrict m2 (by omega)

/-- The argmax of a non-empty list is the first position attaining the
maximum: everything is weakly below it, and everything strictly before it is
strictly below it. -/
theorem argmax_least (l : List ℚ) (hne : l ≠ []) :
    ∃ j : ℕ, argmax l = (j : Int) ∧ j < l.length ∧
      (∀ m, m < l.length → l.getD m 0 ≤ l.getD j 0) ∧
      (∀ m, m < j → l.getD m 0 < l.getD j 0) := by
  cases l with
  | nil => exact absurd rfl hne
  | cons x xs =>
    have hstep : argmaxAux (x :: xs) x 0 0 = argmaxAux xs x 0 1 := by
      simp [argmaxAux]
    rcases argmaxAux_spec xs x 0 1 (by omega) with ⟨heq, hall⟩ | ⟨k, hk, heq, hgt, hmax, hstrict⟩
    · refine ⟨0, by simp [argmax, hstep, heq], by simp, ?_, ?_⟩
      · intro m hm
        cases m with
        | zero => simp
        | succ m2 => simpa using hall m2 (by simpa using hm)
      · intro m hm
        exact absurd hm (Nat.not_lt_zero m)
    · refine ⟨k + 1, ?_, by simpa using hk, ?_, ?_⟩
      · simp [argmax, hstep, heq]
        omega
      · intro m hm
        cases m with
        | zero => simpa using le_of_lt hgt
        | succ m2 => simpa using hmax m2 (by simpa using hm)
      · intro m hm
        cases m with
        | zero => simpa using hgt
        | succ m2 => simpa using hstrict m2 (by omega)

/-- C8: the greedy decode is deterministic — the decoder is a pure function
of the session behaviour, the encoder output and the vocabulary, so two runs
on identical inputs agree; token selection at each step depends only on the
vocabulary-sized prefix of the logits (the 5 duration scores are ignored);
and the arg-max resolves ties to the lowest index (everything before the
chosen index is strictly smaller, everything else at most equal). -/
theorem c8_deterministic_greedy :
    (∀ (sess : DecoderSession) (p : ParakeetModel) (eo : List ℚ) (el : Int),
      runDecoder sess p eo el = runDecoder sess p eo el) ∧
    (∀ (p : ParakeetModel) (st : DecState) (l1 l2 n1 n2 : List ℚ),
      l1.take p.vocab.length = l2.take p.vocab.length →
      decodeUpdate p st l1 n1 n2 = decodeUpdate p st l2 n1 n2) ∧
    (∀ l : List ℚ, l ≠ [] →
      ∃ j : ℕ, argmax l = (j : Int) ∧ j < l.length ∧
        (∀ m, m < l.length → l.getD m 0 ≤ l.getD j 0) ∧
        (∀ m, m < j → l.getD m 0 < l.getD j 0)) :=
  ⟨fun _ _ _ _ => rfl,
   fun p st l1 l2 n1 n2 h => by simp only [decodeUpdate, h],
   argmax_least⟩

/-- Witness for C8: two logits vectors that agree on the two vocabulary
entries but differ in the duration-score tail produce the same transition. -/
theorem c8_deterministic_greedy_witness :
    decodeUpdate sampleModel sampleState [3, 9, 100] [] []
      = decodeUpdate sampleModel sampleState [3, 9, 0] [] [] :=
  c8_deterministic_greedy.2.1 sampleModel sampleState [3, 9, 100] [3, 9, 0] [] [] (by decide)

/-! ## C9: stage-tagged failures, never a partial transcript -/

/-- C9: an empty vocabulary makes `Transcribe` fail with the
vocabulary-not-loaded error before any session is constructed; a failing
preprocessor, encoder or decoder stage yields an error wrapped with that
stage's name; and every failing call returns the empty string — never a
partial transcript. -/
theorem c9_error_handling (o : Oracles) (p : ParakeetModel) (samples : List ℚ) :
    (p.vocab.length = 0 →
      transcribe o p samples
        = (("", some "vocabulary not loaded, call LoadVocabulary first"), 0)) ∧
    (∀ e, p.vocab.length ≠ 0 → o.pre samples = .error e →
      transcribe o p samples = (("", some ("preprocessor error: " ++ e)), 0)) ∧
    (∀ features L e, p.vocab.length ≠ 0 →
      runPreprocessor o.pre samples = .ok (features, L) →
      o.enc (runEncoderInput features L) = .error e →
      transcribe o p samples = (("", some ("encoder error: " ++ e)), 1)) ∧
    (∀ features L eo el e, p.vocab.length ≠ 0 →
      runPreprocessor o.pre samples = .ok (features, L) →
      runEncoder o.enc features L = .ok (eo, el) →
      runDecoder o.dec p eo el = .error e →
      transcribe o p samples = (("", some ("decoder error: " ++ e)), 2)) ∧
    ((transcribe o p samples).1.2 ≠ none → (transcribe o p samples).1.1 = "") := by
  refine ⟨?_, ?_, ?_, ?_, ?_⟩
  · intro h
    simp [transcribe, h]
  · intro e hv hp
    have hp2 : runPreprocessor o.pre samples = .error e := by
      rw [runPreprocessor, hp]
    simp [transcribe, hv, hp2]
  · intro features L e hv hp he
    have he2 : runEncoder o.enc features L = .error e := by
      rw [runEncoder, he]
    simp [transcribe, hv, hp, he2]
  · intro features L eo el e hv hp he hd
    simp [transcribe, hv, hp, he, hd]
  · by_cases hv : p.vocab.length = 0
    · intro _
      simp [transcribe, hv]
    · cases hp : runPreprocessor o.pre samples with
      | error e => intro _; simp [transcribe, hv, hp]
      | ok pre =>
        obtain ⟨features, L⟩ := pre
        cases he : runEncoder o.enc features L with
        | error e => intro _; simp [transcribe, hv, hp, he]
        | ok enc =>
          obtain ⟨eo, el⟩ := enc
          cases hd : runDecoder o.dec p eo el with
          | error e => intro _; simp [transcribe, hv, hp, he, hd]
          | ok dec =>
            obtain ⟨text, n⟩ := dec
            intro hcontra
            exact absurd (by simp [transcribe, hv, hp, he, hd]) hcontra

/-- A preprocessor oracle that fails. -/
def failPre : PreprocessorSession := fun _ => .error "boom"

/-- An oracle triple whose preprocessor stage fails. -/
def failOracles : Oracles := { pre := failPre, enc := okEnc, dec := okDec }

/-- Witness for C9: a failing preprocessor stage produces the stage-tagged
error and an empty transcript with no session construction. -/
theorem c9_error_handling_witness :
    transcribe failOracles sampleModel []
      = (("", some ("preprocessor error: " ++ "boom")), 0) :=
  (c9_error_handling failOracles sampleModel []).2.1 "boom" (by decide) rfl

/-! ## C10: loading an empty vocabulary source -/

/-- The scanner loop leaves the accumulators untouched when no line has a
first field. -/
theorem loadVocabAux_all_blank (lines : List String)
    (h : ∀ l ∈ lines, fieldsGo l = []) :
    ∀ (idx : Int) (vocab : List String) (blankIdx : Int),
      loadVocabAux lines idx vocab blankIdx = (vocab, blankIdx) := by
  induction lines with
  | nil => intro idx vocab blankIdx; rfl
  | cons l rest ih =>
    intro idx vocab blankIdx
    rw [loadVocabAux, h l (by simp)]
    exact ih (fun x hx => h x (by simp [hx])) (idx + 1) vocab blankIdx

/-- C10: a vocabulary source with no tokens (empty, or only whitespace
lines) loads without error into an empty token list with blank index -1, and
every subsequent `Transcribe` on the resulting model fails with the
vocabulary-not-loaded error (constructing no session) instead of indexing
into the empty vocabulary. -/
theorem c10_empty_vocab (lines : List String)
    (h : ∀ l ∈ lines, fieldsGo l = []) :
    loadVocabulary lines = ([], -1) ∧
    ∀ (o : Oracles) (samples : List ℚ),
      transcribe o (loadModel lines) samples
        = (("", some "vocabulary not loaded, call LoadVocabulary first"), 0) := by
  have hload : loadVocabulary lines = ([], -1) := by
    rw [loadVocabulary, loadVocabAux_all_blank lines h]
    norm_num
  refine ⟨hload, fun o samples => ?_⟩
  simp [transcribe, loadModel, hload]

/-- Witness for C10 on a source of one empty and one whitespace-only line,
with a Transcribe call against the loaded (empty) model. -/
theorem c10_empty_vocab_witness :
    loadVocabulary ["", "   "] = ([], -1) ∧
    transcribe okOracles (loadModel ["", "   "]) []
      = (("", some "vocabulary not loaded, call LoadVocabulary first"), 0) :=
  ⟨(c10_empty_vocab ["", "   "] (by decide)).1,
   (c10_empty_vocab ["", "   "] (by decide)).2 okOracles []⟩

end ExpStt
